import Mathlib

/-!
Verification development for the NCP repository (neural conditional
probability).  The Python sources are embedded shallowly:

* `src/NCP/model.py`      — the `DeepSVD` operator model (`predict`,
  `conditional_probability`, `joint_probability`, `sqrtmh`, `indicator_fn`);
* `src/NCP/nn/layers.py`  — the `IterativeWhitening` layer;
* `src/NCP/cde_fork/density_simulation/symmGMM.py` — the
  `SymmGaussianMixture` simulator constructor;
* `src/NCP/examples/NCP_benchmarks.py` and
  `src/NCP/examples/benchmark_scripts/KMN_benchmarks.py` — the two
  benchmark sweep drivers (their accumulate/resume/save result tables).

Numeric arrays are modelled as `List ℚ` / `List (List ℚ)` (row-major);
where IEEE special values (inf/nan) decide the behaviour, a four-point
value domain `FVal` with the IEEE multiplication/addition rules is used;
the eigen-decomposition based matrix square root is modelled over `ℝ`
with an explicit eigendecomposition as input.
-/

/-! ## Generic list and matrix helpers (numpy / torch counterparts) -/

/-- Sum of all entries of a row-major matrix (numpy `m.sum()` numerator). -/
def matEntrySum (m : List (List ℚ)) : ℚ :=
  (m.map List.sum).sum

/-- Total number of entries of a row-major matrix. -/
def matEntryCount (m : List (List ℚ)) : ℕ :=
  (m.map List.length).sum

/-- numpy `np.mean` over a whole 2-D array: sum of entries over their count. -/
def npMean (m : List (List ℚ)) : ℚ :=
  matEntrySum m / (matEntryCount m : ℚ)

/-- numpy `np.ones(d)`. -/
def npOnes (d : ℕ) : List ℚ :=
  List.replicate d 1

/-- numpy `np.outer(v, w)`: the matrix with entries `v i * w j`. -/
def npOuter (v w : List ℚ) : List (List ℚ) :=
  v.map (fun a => w.map (fun b => a * b))

/-- Elementwise (Hadamard) product of two row-major matrices, numpy `A * B`
on arrays of equal shape. -/
def hadamardMul (A B : List (List ℚ)) : List (List ℚ) :=
  List.zipWith (List.zipWith (· * ·)) A B

/-- numpy `np.mean(m, axis=0)` for a non-empty rectangular matrix: the
vector of column means, one entry per column of the first row. -/
def colMean (m : List (List ℚ)) : List ℚ :=
  (List.range (m.headD []).length).map
    (fun i => (m.map (fun r => r.getD i 0)).sum / (m.length : ℚ))

/-- Matrix-vector product for row-major rational matrices. -/
def matVec (A : List (List ℚ)) (v : List ℚ) : List ℚ :=
  A.map (fun r => (List.zipWith (· * ·) r v).sum)

/-- Matrix-matrix product for row-major rational matrices (`A @ B`);
entry `(i, j)` is the dot product of row `i` of `A` with column `j` of `B`. -/
def matMul (A B : List (List ℚ)) : List (List ℚ) :=
  A.map (fun r =>
    (List.range ((B.headD []).length)).map
      (fun j => (List.zipWith (fun x br => x * br.getD j 0) r B).sum))

/-- Trace of a row-major square matrix (`torch.trace`). -/
def matTrace (A : List (List ℚ)) : ℚ :=
  ((List.range A.length).map (fun i => (A.getD i []).getD i 0)).sum

/-- Identity matrix as a row-major rational matrix (`torch.eye`). -/
def matEye (d : ℕ) : List (List ℚ) :=
  (List.range d).map (fun i => (List.range d).map (fun j => if i = j then 1 else 0))

/-- Scalar multiple of a row-major matrix. -/
def matSmul (c : ℚ) (A : List (List ℚ)) : List (List ℚ) :=
  A.map (fun r => r.map (fun x => c * x))

/-- Entrywise sum of two row-major matrices of equal shape. -/
def matAdd (A B : List (List ℚ)) : List (List ℚ) :=
  List.zipWith (List.zipWith (· + ·)) A B

/-- Entrywise difference of two row-major matrices of equal shape. -/
def matSub (A B : List (List ℚ)) : List (List ℚ) :=
  List.zipWith (List.zipWith (· - ·)) A B

/-- Reshape a flat list of draws into `m` consecutive rows of length `k`
(numpy `reshape`-style chunking used for `size=[m, k]` draws). -/
def chunkRows (l : List ℚ) (k m : ℕ) : List (List ℚ) :=
  (List.range m).map (fun j => (l.drop (j * k)).take k)

/-! ## A four-point IEEE value domain

`DeepSVD.conditional_probability` and `DeepSVD.joint_probability` divide by
empirical rates that can be zero; numpy then produces `inf` (with a
`RuntimeWarning`, not an exception) and subsequent `0 * inf` products
produce `nan`.  `FVal` models exactly the finite/∞/−∞/NaN float algebra
that those expressions exercise; finite values are kept exact in `ℚ`. -/

inductive FVal where
  | fin : ℚ → FVal
  | inf : FVal
  | ninf : FVal
  | nan : FVal
deriving DecidableEq, Repr

namespace FVal

/-- IEEE-754 multiplication on the four-point domain: `nan` absorbs,
`0 * ±∞ = nan`, signs propagate, finite values multiply exactly. -/
def mul : FVal → FVal → FVal
  | nan, _ => nan
  | _, nan => nan
  | fin a, fin b => fin (a * b)
  | fin a, inf => if 0 < a then inf else if a < 0 then ninf else nan
  | fin a, ninf => if 0 < a then ninf else if a < 0 then inf else nan
  | inf, fin b => if 0 < b then inf else if b < 0 then ninf else nan
  | ninf, fin b => if 0 < b then ninf else if b < 0 then inf else nan
  | inf, inf => inf
  | inf, ninf => ninf
  | ninf, inf => ninf
  | ninf, ninf => inf

/-- IEEE-754 addition on the four-point domain: `nan` absorbs,
`∞ + (−∞) = nan`, infinities absorb finite summands. -/
def add : FVal → FVal → FVal
  | nan, _ => nan
  | _, nan => nan
  | fin a, fin b => fin (a + b)
  | fin _, inf => inf
  | inf, fin _ => inf
  | inf, inf => inf
  | fin _, ninf => ninf
  | ninf, fin _ => ninf
  | ninf, ninf => ninf
  | inf, ninf => nan
  | ninf, inf => nan

/-- numpy `x ** -1` on a float64 scalar: `0.0 ** -1` evaluates to `inf`
(raising only a `RuntimeWarning`), nonzero finite values invert exactly. -/
def powNegOne : FVal → FVal
  | fin a => if a = 0 then inf else fin a⁻¹
  | inf => fin 0
  | ninf => fin 0
  | nan => nan

/-- Whether the value is an ordinary finite float (not inf/−inf/nan). -/
def isFinite : FVal → Bool
  | fin _ => true
  | _ => false

end FVal

/-- numpy `arr.sum()` over a 1-D array of floats, starting from `0.0`. -/
def sumF (l : List FVal) : FVal :=
  l.foldl FVal.add (FVal.fin 0)

/-! ## DeepSVD (`src/NCP/model.py`)

The claims about `DeepSVD.predict`, `DeepSVD.conditional_probability` and
`DeepSVD.joint_probability` concern how those methods *combine* the triple
`(Ux, sing_val, Vy)` produced by `postprocess_UV` / `postprocess_UV_tmp`
with the retained training data.  A fitted model is therefore embedded as
the retained training arrays together with the two triple-producing
post-processing paths (whose internals involve `torch.linalg.eigh` and are
abstracted as functions); the combination arithmetic of each query method
is transcribed literally. -/

/-- Python `indicator_fn(x, interval)` from `model.py`: elementwise closed
interval membership `(interval[0] <= x) & (x <= interval[1])`, here for the
one-dimensional (squeezed) case used by the probability queries. -/
def indicator_fn (xs : List ℚ) (lo hi : ℚ) : List Bool :=
  xs.map (fun v => decide (lo ≤ v) && decide (v ≤ hi))

/-- numpy `mask.mean()` for a boolean mask: fraction of `True` entries. -/
def boolMean (mask : List Bool) : ℚ :=
  ((mask.countP (fun b => b)) : ℚ) / (mask.length : ℚ)

/-- numpy `M[mask, :].sum(axis=0) * n ** -1`: per column, the sum of the
rows selected by the boolean mask, scaled by `1/n` (an empty selection
sums to the zero vector, as in numpy). -/
def maskedRowMean (M : List (List ℚ)) (mask : List Bool) (n : ℕ) : List ℚ :=
  (List.range (M.headD []).length).map
    (fun i => (List.zipWith (fun r b => if b then r.getD i 0 else 0) M mask).sum * (n : ℚ)⁻¹)

/-- A fitted `DeepSVD` model, as the query methods see it: the retained
training arrays (`save_after_training`) and the two post-processing paths
`postprocess_UV` (used when `postprocessing=True`) and `postprocess_UV_tmp`
(the raw path), each mapping the query points to `(Ux, sing_val, Vy)`. -/
structure FittedDeepSVD where
  trainingX : List ℚ
  trainingY : List (List ℚ)
  postprocessUV : List (List ℚ) → List (List ℚ) × List ℚ × List (List ℚ)
  postprocessUVtmp : List (List ℚ) → List (List ℚ) × List ℚ × List (List ℚ)

namespace DeepSVD

/-- Combination arithmetic of `DeepSVD.predict` (model.py lines 121-128),
given the post-processed triple and the squeezed observable values
`fYv = np.squeeze(observable(self.training_Y))`:
`fY = np.outer(fYv, np.ones(Vy.shape[-1]))`, `bias = np.mean(fY)`,
`Vy_fY = np.mean(Vy * fY, axis=0)`, and per test row
`bias + np.sum(sing_val * Ux * Vy_fY, axis=-1)`. -/
def predictCompute (Ux : List (List ℚ)) (sing_val : List ℚ)
    (Vy : List (List ℚ)) (fYv : List ℚ) : List ℚ :=
  let fY := npOuter fYv (npOnes (Vy.headD []).length)
  let bias := npMean fY
  let Vy_fY := colMean (hadamardMul Vy fY)
  (Ux.map (fun u => List.zipWith (· * ·) (List.zipWith (· * ·) sing_val u) Vy_fY)).map
    (fun r => bias + r.sum)

/-- `DeepSVD.predict(X_test, observable, postprocessing)`: select the
post-processing path, then apply the combination arithmetic to the
observable evaluated on the retained training `Y`. -/
def predict (m : FittedDeepSVD) (X_test : List (List ℚ))
    (observable : List (List ℚ) → List ℚ) (postprocessing : Bool) : List ℚ :=
  let t := if postprocessing then m.postprocessUV X_test else m.postprocessUVtmp X_test
  predictCompute t.1 t.2.1 t.2.2 (observable m.trainingY)

/-- `DeepSVD.conditional_probability(interval_A, interval_B)` (model.py
lines 130-146) given the post-processed triple on the training points and
the squeezed 1-D training arrays:
`y_B.mean() + (sing_val * Ux_A * (x_A.mean() ** -1) * Vy_B).sum(axis=-1)`,
evaluated in IEEE float arithmetic (`FVal`). -/
def conditional_probability (sing_val : List ℚ) (Ux Vy : List (List ℚ))
    (X_train Y_train : List ℚ) (aLo aHi bLo bHi : ℚ) : FVal :=
  let n := Y_train.length
  let x_A := indicator_fn X_train aLo aHi
  let y_B := indicator_fn Y_train bLo bHi
  let Ux_A := maskedRowMean Ux x_A n
  let Vy_B := maskedRowMean Vy y_B n
  let rateAInv := FVal.powNegOne (FVal.fin (boolMean x_A))
  let terms := List.zipWith (fun su v => (su.mul rateAInv).mul (FVal.fin v))
    (List.zipWith (fun s a => (FVal.fin s).mul (FVal.fin a)) sing_val Ux_A) Vy_B
  (FVal.fin (boolMean y_B)).add (sumF terms)

/-- `DeepSVD.joint_probability(interval_A, interval_B)` (model.py lines
148-164):
`1 + (sing_val * Ux_A * (x_A.mean() ** -1) * Vy_B * (y_B.mean() ** -1)).sum(axis=-1)`
in IEEE float arithmetic (`FVal`). -/
def joint_probability (sing_val : List ℚ) (Ux Vy : List (List ℚ))
    (X_train Y_train : List ℚ) (aLo aHi bLo bHi : ℚ) : FVal :=
  let n := Y_train.length
  let x_A := indicator_fn X_train aLo aHi
  let y_B := indicator_fn Y_train bLo bHi
  let Ux_A := maskedRowMean Ux x_A n
  let Vy_B := maskedRowMean Vy y_B n
  let rateAInv := FVal.powNegOne (FVal.fin (boolMean x_A))
  let rateBInv := FVal.powNegOne (FVal.fin (boolMean y_B))
  let terms := List.zipWith (fun t r => t.mul r)
    (List.zipWith (fun su v => (su.mul rateAInv).mul (FVal.fin v))
      (List.zipWith (fun s a => (FVal.fin s).mul (FVal.fin a)) sing_val Ux_A) Vy_B)
    (List.replicate ((Vy.headD []).length) rateBInv)
  (FVal.fin 1).add (sumF terms)

end DeepSVD

/-! ## `sqrtmh` (model.py lines 291-298)

`sqrtmh(A)` eigendecomposes `A` with `torch.linalg.eigh`, zeroes every
eigenvalue at or below `L.max() * L.size(-1) * eps`, and reconstructs
`(Q * L.sqrt()) @ Q.mH`.  The eigendecomposition itself is the external
LAPACK contract, so the embedding takes the decomposition `(L, Q)` as
input and transcribes the clamping and the reconstruction over `ℝ`. -/

open Matrix

/-- Machine epsilon of `torch.float64` (`torch.finfo(torch.float64).eps`),
exactly `2 ^ (-52)`. -/
noncomputable def machEps : ℝ := 1 / 2 ^ 52

/-- The clamping threshold of `sqrtmh`:
`L.max(-1).values * L.size(-1) * torch.finfo(L.dtype).eps`. -/
noncomputable def eighThreshold {n : ℕ} [NeZero n] (L : Fin n → ℝ) : ℝ :=
  (Finset.univ.sup' Finset.univ_nonempty L) * n * machEps

/-- The clamped eigenvalue vector: `L.where(L > threshold, zero)` keeps an
eigenvalue only when it is strictly above the threshold. -/
noncomputable def clampedEigs {n : ℕ} [NeZero n] (L : Fin n → ℝ) : Fin n → ℝ :=
  fun i => if eighThreshold L < L i then L i else 0

/-- `sqrtmh` applied to the matrix whose eigendecomposition is `(L, Q)`:
`(Q * Lc.sqrt().unsqueeze(-2)) @ Q.mH`, i.e. `Q ⬝ diag (√ Lc) ⬝ Qᵀ` with
`Lc` the clamped eigenvalues (real symmetric case, where `Q.mH = Qᵀ`). -/
noncomputable def sqrtmh {n : ℕ} [NeZero n] (L : Fin n → ℝ)
    (Q : Matrix (Fin n) (Fin n) ℝ) : Matrix (Fin n) (Fin n) ℝ :=
  Q * Matrix.diagonal (fun i => Real.sqrt (clampedEigs L i)) * Qᵀ

/-! ## `IterativeWhitening` (`src/NCP/nn/layers.py`, lines 76-106)

The layer is embedded together with the three Python-level control-flow
facts its behaviour hinges on: `__init__` never calls the torch
`Module.__init__`, so `register_buffer` raises; the assert in
`_compute_whitening_matrix` compares the *bound method* `X.dim` (not the
call `X.dim()`) with `2`; and the shape-mismatch branch `return`s a
`ValueError` object instead of raising it. -/

/-- State of an `IterativeWhitening` module: constructor attributes plus
the two registered buffers. -/
structure IWState where
  input_size : ℕ
  newton_iterations : ℕ
  eps : ℚ
  momentum : ℚ
  running_mean : List ℚ
  running_whitening_mat : List (List ℚ)
deriving DecidableEq, Repr

/-- The Python expression `X.dim == 2` (layers.py line 88): `X.dim` is the
bound method object `Tensor.dim`, never called, so its comparison with the
integer `2` is `False` for every tensor `X`. -/
def tensorDimEqTwo : Bool := false

/-- torch `nn.Module.register_buffer`: raises `AttributeError` when the
module's internal buffer table does not exist, i.e. when `Module.__init__`
has not run on `self` (external torch behaviour). -/
def registerBuffer {α : Type} (moduleInitialized : Bool) (buf : α) : Except String α :=
  if moduleInitialized then Except.ok buf
  else Except.error "AttributeError: cannot assign buffer before Module.__init__() call"

namespace IterativeWhitening

/-- `IterativeWhitening.__init__(input_size, newton_iterations, eps,
momentum)` (layers.py lines 78-85): the plain attributes are assigned, then
`register_buffer` is reached; since `super().__init__()` is never called,
the torch module state is uninitialised (`moduleInitialized := false`) and
the first `register_buffer` call raises. -/
def init (input_size newton_iterations : ℕ) (eps momentum : ℚ) :
    Except String IWState := do
  let running_mean ← registerBuffer false (List.replicate input_size (0 : ℚ))
  let running_whitening_mat ← registerBuffer false
    (List.replicate input_size (List.replicate input_size (0 : ℚ)))
  Except.ok ⟨input_size, newton_iterations, eps, momentum, running_mean, running_whitening_mat⟩

/-- `torch.cov(X.T, correction=0)`: the biased (population) covariance of
the batch `X` (rows = samples), entry `(i, k)` being the mean of the
centred products of columns `i` and `k`. -/
def torchCovPop (X : List (List ℚ)) : List (List ℚ) :=
  let mu := colMean X
  ((List.range (X.headD []).length).map (fun i =>
    (List.range (X.headD []).length).map (fun k =>
      (X.map (fun r => (r.getD i 0 - mu.getD i 0) * (r.getD k 0 - mu.getD k 0))).sum
        / (X.length : ℚ))))

/-- One Newton iteration `P ← 0.5 * (3 * P − matrix_power(P, 3) @ normCovX)`
(layers.py line 95). -/
def newtonStep (normCovX P : List (List ℚ)) : List (List ℚ) :=
  matSmul (1 / 2) (matSub (matSmul 3 P) (matMul (matMul (matMul P P) P) normCovX))

/-- The uninterrupted computation of `_compute_whitening_matrix` (layers.py
lines 91-98): biased covariance plus `eps * I`, trace normalisation,
`newton_iterations` Newton steps from the identity, final rescaling by
`1 / trace(covX)`, and the batch mean. -/
def whiteningStats (st : IWState) (X : List (List ℚ)) : List ℚ × List (List ℚ) :=
  let covX := matAdd (torchCovPop X) (matSmul st.eps (matEye st.input_size))
  let normCovX := matSmul (matTrace covX)⁻¹ covX
  let P := (List.range st.newton_iterations).foldl (fun P _ => newtonStep normCovX P)
    (matEye st.input_size)
  (colMean X, matSmul (matTrace covX)⁻¹ P)

/-- The two possible Python return values of `_compute_whitening_matrix`:
the `(X_mean, whitening_mat)` tuple, or — on the mismatched-width branch —
the constructed-and-`return`ed `ValueError` object itself. -/
inductive WhiteningOut where
  | stats : List ℚ → List (List ℚ) → WhiteningOut
  | valueErrorObj : String → WhiteningOut
deriving DecidableEq, Repr

/-- Message of the `ValueError` built on layers.py line 90. -/
def invalidInputMsg : String :=
  "The feature dimension of the input tensor does not match the input_size attribute"

/-- `IterativeWhitening._compute_whitening_matrix(X)` (layers.py lines
87-98), transcribed with its actual control flow: the assert tests
`X.dim == 2` (the bound method compared with `2`, hence `False`), so the
method raises `AssertionError` on every input; were the assert passed, a
mismatched feature width would `return` (not raise) the `ValueError`
object, and a matching width would return the statistics tuple. -/
def compute_whitening_matrix (st : IWState) (X : List (List ℚ)) :
    Except String WhiteningOut :=
  if tensorDimEqTwo then
    if (X.headD []).length ≠ st.input_size then
      Except.ok (WhiteningOut.valueErrorObj invalidInputMsg)
    else
      Except.ok (WhiteningOut.stats (whiteningStats st X).1 (whiteningStats st X).2)
  else
    Except.error "AssertionError: Only supporting 2D Tensors"

/-- Variant of `compute_whitening_matrix` that differs from the source in
exactly one place: the dimension assert is evaluated as intended
(`X.dim() == 2`, true for a 2-D batch).  It exhibits that even then the
mismatched-width branch returns the `ValueError` object as an ordinary
value instead of raising it. -/
def compute_whitening_matrix_intended_assert (st : IWState) (X : List (List ℚ)) :
    Except String WhiteningOut :=
  if (X.headD []).length ≠ st.input_size then
    Except.ok (WhiteningOut.valueErrorObj invalidInputMsg)
  else
    Except.ok (WhiteningOut.stats (whiteningStats st X).1 (whiteningStats st X).2)

/-- The call `self._update_running_stats(self._compute_whitening_matrix(X))`
in `forward` (layers.py line 105) passes one tuple where the method
signature `_update_running_stats(self, mean, whitening_mat)` demands two
positional arguments, so the call raises `TypeError` before any body runs. -/
def update_running_stats_call (st : IWState) (arg : WhiteningOut) :
    Except String IWState :=
  Except.error "TypeError: _update_running_stats() missing 1 required positional argument"

/-- The body of `_update_running_stats(mean, whitening_mat)` (layers.py
lines 100-102) as it would execute if it were called with both arguments:
exponential averaging of the running statistics with coefficient
`momentum`. -/
def update_running_stats_body (st : IWState) (mean : List ℚ)
    (whitening_mat : List (List ℚ)) : IWState :=
  { st with
    running_mean := List.zipWith (fun m r => st.momentum * m + (1 - st.momentum) * r)
      mean st.running_mean
    running_whitening_mat := List.zipWith
      (List.zipWith (fun m r => st.momentum * m + (1 - st.momentum) * r))
      whitening_mat st.running_whitening_mat }

/-- `IterativeWhitening.forward(X)` (layers.py lines 104-106): update the
running statistics from the freshly computed batch statistics, then return
`(X - running_mean) @ running_whitening_mat`. -/
def forward (st : IWState) (X : List (List ℚ)) :
    Except String (IWState × List (List ℚ)) := do
  let w ← compute_whitening_matrix st X
  let st2 ← update_running_stats_call st w
  Except.ok (st2, matMul (X.map (fun r => List.zipWith (· - ·) r st2.running_mean))
    st2.running_whitening_mat)

end IterativeWhitening

/-! ## `SymmGaussianMixture` (`src/NCP/cde_fork/density_simulation/symmGMM.py`)

The constructor samples all mixture parameters from
`self.random_state_params = np.random.RandomState(seed=20)` while
`self.random_state = np.random.RandomState(seed=random_seed)` is reserved
for data sampling.  A `np.random.RandomState` is modelled as a seed-indexed
draw stream plus a consumption counter; a `normal(loc, scale)` draw is
`loc + scale * u` with `u` the next unit draw of the stream.  The group
averaging branch (lines 64-78) reads the *module-level* name `G` (not
`self.G`); that name is bound only by the `if __name__ == "__main__"`
block, so it is modelled as an `Option` of the global group's order. -/

/-- A raised Python exception: its class name and message. -/
structure PyErr where
  kind : String
  msg : String
deriving DecidableEq, Repr

/-- A `np.random.RandomState`: the deterministic draw stream obtained from
the seed, plus how many draws were already consumed. -/
structure RandomState where
  stream : ℕ → ℚ
  pos : ℕ

/-- `np.random.RandomState(seed=s)`: fresh state at the start of the
seed-determined stream. -/
def RandomState.ofSeed (family : Option ℕ → ℕ → ℚ) (seed : Option ℕ) : RandomState :=
  ⟨family seed, 0⟩

/-- `rs.random(k)`: the next `k` unit draws, advancing the state. -/
def RandomState.random (rs : RandomState) (k : ℕ) : List ℚ × RandomState :=
  ((List.range k).map (fun i => rs.stream (rs.pos + i)), ⟨rs.stream, rs.pos + k⟩)

/-- `rs.normal(loc, scale, k)` flattened to `k` draws: each draw is
`loc + scale * u` with `u` the next unit draw. -/
def RandomState.normal (rs : RandomState) (loc scale : ℚ) (k : ℕ) :
    List ℚ × RandomState :=
  ((List.range k).map (fun i => loc + scale * rs.stream (rs.pos + i)), ⟨rs.stream, rs.pos + k⟩)

/-- The mixture parameters sampled by the constructor before group
averaging: weights, joint means, X-covariance and Y-covariance blocks. -/
structure SymmGMMParams where
  weights : List ℚ
  means : List (List ℚ)
  covariances_x : List (List (List ℚ))
  covariances_y : List (List (List ℚ))
deriving DecidableEq, Repr

/-- `SymmGaussianMixture._sample_weights` normalisation (lines 102-110):
the drawn weights divided by their sum. -/
def sample_weights (raw : List ℚ) : List ℚ :=
  raw.map (fun w => w / raw.sum)

/-- Weight symmetrization (lines 77-78):
`np.concatenate([weights] * G.order())` followed by renormalisation. -/
def symmetrizeWeights (w : List ℚ) (gOrder : ℕ) : List ℚ :=
  let w2 := (List.replicate gOrder w).flatten
  w2.map (fun x => x / w2.sum)

/-- Lines 25-26 and 43-62 of symmGMM.py: the sampled mixture parameters.
`family` maps a seed to the unit draw stream of a `np.random.RandomState`;
`proj` is the external `project_to_pos_semi_def` utility (imported from
`NCP.cde_fork.utils.misc`, outside the provided source), applied to one
candidate block at a time.  The data state `self.random_state` is created
from `random_seed`, but every parameter draw comes from
`self.random_state_params`, created from the fixed seed `20`. -/
def symmInitParams (family : Option ℕ → ℕ → ℚ) (proj : List (List ℚ) → List (List ℚ))
    (n_kernels ndim_x ndim_y : ℕ) (means_std : ℚ) (random_seed : Option ℕ) :
    SymmGMMParams :=
  let random_state := RandomState.ofSeed family random_seed
  let random_state_params := RandomState.ofSeed family (some 20)
  let ndim := ndim_x + ndim_y
  let (wraw, rs1) := random_state_params.random n_kernels
  let weights := sample_weights wraw
  let (mflat, rs2) := rs1.normal 0 means_std (n_kernels * ndim)
  let means := chunkRows mflat ndim n_kernels
  let (cxflat, rs3) := rs2.normal 1 (1 / 2) (n_kernels * (ndim_x * ndim_x))
  let covariances_x := (chunkRows (cxflat.map (fun v => |v|)) (ndim_x * ndim_x) n_kernels).map
    (fun f => proj (chunkRows f ndim_x ndim_x))
  let (cyflat, _rs4) := rs3.normal 1 (1 / 2) (n_kernels * (ndim_y * ndim_y))
  let covariances_y := (chunkRows (cyflat.map (fun v => |v|)) (ndim_y * ndim_y) n_kernels).map
    (fun f => proj (chunkRows f ndim_y ndim_y))
  ⟨weights, means, covariances_x, covariances_y⟩

/-- A constructed `SymmGaussianMixture` instance (the fields assembled by
`__init__` up to the frozen scipy distributions and the data statistics,
which are external contracts: `stats.multivariate_normal`, the inherited
`simulate`, and `symmetric_moments`). -/
structure SymmGMMInstance where
  n_kernels : ℕ
  weights : List ℚ
  means : List (List ℚ)
  covariances_x : List (List (List ℚ))
  covariances_y : List (List (List ℚ))
  covariances : List (List (List ℚ))
  means_x : List (List ℚ)
  means_y : List (List ℚ)
deriving DecidableEq, Repr

/-- Lines 84-86 of symmGMM.py: the joint covariance assembled block
diagonally from the X-block and the Y-block with zero cross blocks. -/
def blockDiagCov (Cx Cy : List (List ℚ)) (dx dy : ℕ) : List (List ℚ) :=
  (List.range (dx + dy)).map (fun r => (List.range (dx + dy)).map (fun c =>
    if r < dx then (if c < dx then (Cx.getD r []).getD c 0 else 0)
    else (if c < dx then 0 else (Cy.getD (r - dx) []).getD (c - dx) 0)))

/-- `SymmGaussianMixture.__init__` (lines 21-97), as executed: sample the
parameters, then — for a non-continuous `self.G` — run the group-averaging
branch, whose every group access reads the module-level name `G`
(`G.order()`, `G.elements`, `G.identity`); `globalG` is `some` of that
group's order when the name is bound (script context) and `none` in
library/import context, where the first access raises `NameError`.
`gContinuous` is `self.G.continuous`; group elements are indexed
`0, …, order−1` with the identity at index `0`; `repAct`, `repXact`,
`repYact` give the joint/X/Y representation matrices of an element and
`invElem` the index of its inverse (`~g`). -/
def symmGMMInit (family : Option ℕ → ℕ → ℚ) (proj : List (List ℚ) → List (List ℚ))
    (globalG : Option ℕ) (gContinuous : Bool) (invElem : ℕ → ℕ)
    (repAct repXact repYact : ℕ → List (List ℚ))
    (n_kernels ndim_x ndim_y : ℕ) (means_std : ℚ) (random_seed : Option ℕ) :
    Except PyErr SymmGMMInstance :=
  let p := symmInitParams family proj n_kernels ndim_x ndim_y means_std random_seed
  if gContinuous = false then
    match globalG with
    | none => Except.error ⟨"NameError", "name G is not defined"⟩
    | some gOrd =>
      let nk := n_kernels * gOrd
      let gs := (List.range gOrd).drop 1
      let means := p.means ++
        (gs.map (fun g => p.means.map (fun mu => matVec (repAct g) mu))).flatten
      let covariances_x := p.covariances_x ++
        (gs.map (fun g => p.covariances_x.map
          (fun C => matMul (matMul (repXact g) C) (repXact (invElem g))))).flatten
      let covariances_y := p.covariances_y ++
        (gs.map (fun g => p.covariances_y.map
          (fun C => matMul (matMul (repYact g) C) (repYact (invElem g))))).flatten
      let weights := symmetrizeWeights p.weights gOrd
      let covariances := List.zipWith (fun Cx Cy => blockDiagCov Cx Cy ndim_x ndim_y)
        covariances_x covariances_y
      Except.ok ⟨nk, weights, means, covariances_x, covariances_y, covariances,
        means.map (List.take ndim_x), means.map (List.drop ndim_x)⟩
  else
    Except.error ⟨"NotImplementedError", "Only finite groups are supported at the moment"⟩

/-! ## Benchmark drivers

`NCP_benchmarks.run_experiment` and `KMN_benchmarks.run_experiment` share
the sweep skeleton: load a result table, iterate over the size ladder and
the seeds, `continue` on every `(n_samples, seed)` pair already present,
and persist the table after each computed seed.  Rows are modelled by
their resume-relevant fields (`seed`, `n_samples`, and for the NCP driver
the `postprocess` label); the per-pair metric computation does not touch
the resume logic and contributes only the appended rows.  The pickle files
are modelled by an association list from path to table; the experiment
ends with the table the final `to_pickle` wrote at its save path. -/

/-- One row of a persisted result table, restricted to the fields the
resume logic reads (`n_samples`, `seed`) plus the NCP postprocess label. -/
structure ResultRow where
  seed : ℕ
  n_samples : ℕ
  postprocess : Option String
deriving DecidableEq, Repr

/-- The number of rows of a table selected by
`results_df[(results_df['n_samples'] == n) & (results_df['seed'] == seed)]`. -/
def countPair (df : List ResultRow) (n s : ℕ) : ℕ :=
  (df.filter (fun r => r.n_samples == n && r.seed == s)).length

/-- The resume check
`len(results_df[(results_df['n_samples'] == n) & (results_df['seed'] == seed)]) > 0`. -/
def hasPair (df : List ResultRow) (n s : ℕ) : Bool :=
  decide (0 < countPair df n s)

/-- The training-set size ladder shared by both drivers. -/
def n_training_samples : List ℕ :=
  [100, 200, 500, 1000, 2000, 5000, 10000, 20000, 50000, 100000]

/-- NCP driver seeds: `range(5)`. -/
def ncpSeeds : List ℕ := List.range 5

/-- KMN driver seeds: `np.arange(10)`. -/
def kmnSeeds : List ℕ := List.range 10

/-- The `(n, seed)` iteration order of a sweep: sizes outer, seeds inner. -/
def pairsLadder (seeds : List ℕ) : List (ℕ × ℕ) :=
  (n_training_samples.map (fun n => seeds.map (fun s => (n, s)))).flatten

/-- Rows appended by one computed NCP `(n, seed)` pair: one row per
postprocess mode in `[None, 'centering', 'whitening']`, each stored with
`str(postprocess)`. -/
def ncpNewRows (n s : ℕ) : List ResultRow :=
  [⟨s, n, some "None"⟩, ⟨s, n, some "centering"⟩, ⟨s, n, some "whitening"⟩]

/-- Rows appended by one computed KMN `(n, seed)` pair. -/
def kmnNewRows (n s : ℕ) : List ResultRow :=
  [⟨s, n, none⟩]

/-- One seed iteration of a sweep: skip when the table is non-empty and
already records the pair, otherwise append the new rows and log the pair
as computed. -/
def seedStep (newRows : ℕ → ℕ → List ResultRow)
    (acc : List ResultRow × List (ℕ × ℕ)) (p : ℕ × ℕ) :
    List ResultRow × List (ℕ × ℕ) :=
  if 0 < acc.1.length then
    if hasPair acc.1 p.1 p.2 then acc
    else (acc.1 ++ newRows p.1 p.2, acc.2 ++ [p])
  else (acc.1 ++ newRows p.1 p.2, acc.2 ++ [p])

/-- The full NCP sweep starting from a loaded table: the final table and
the list of `(n, seed)` pairs actually computed (not skipped). -/
def ncpRunFrom (df0 : List ResultRow) : List ResultRow × List (ℕ × ℕ) :=
  (pairsLadder ncpSeeds).foldl (seedStep ncpNewRows) (df0, [])

/-- The full KMN sweep starting from a loaded table. -/
def kmnRunFrom (df0 : List ResultRow) : List ResultRow × List (ℕ × ℕ) :=
  (pairsLadder kmnSeeds).foldl (seedStep kmnNewRows) (df0, [])

/-- Read a path from the modelled file system. -/
def fsRead (fs : List (String × List ResultRow)) (p : String) : Option (List ResultRow) :=
  (fs.find? (fun e => e.1 == p)).map (fun e => e.2)

/-- Overwrite a path in the modelled file system. -/
def fsWrite (fs : List (String × List ResultRow)) (p : String) (t : List ResultRow) :
    List (String × List ResultRow) :=
  (fs.filter (fun e => e.1 != p)) ++ [(p, t)]

/-- NCP driver table file: `<SimulatorClassName> + '_NCP_results.pkl'`,
used both by the start-up `pd.read_pickle(filename)` and by the per-seed
`results_df.to_pickle(filename)` (NCP_benchmarks.py lines 31, 38-39, 173). -/
def ncp_results_filename (simName : String) : String :=
  simName ++ "_NCP_results.pkl"

/-- KMN driver load path: `filename = <SimulatorClassName> + '_KMN_results.pkl'`
read at start-up by `pd.read_pickle(filename)` (KMN_benchmarks.py lines 22,
27-28) — a working-directory path. -/
def kmn_results_filename (simName : String) : String :=
  simName ++ "_KMN_results.pkl"

/-- KMN driver save path: `results_df.to_pickle('results/' + filename)`
(KMN_benchmarks.py line 118). -/
def kmn_save_path (simName : String) : String :=
  "results/" ++ kmn_results_filename simName

/-- `NCP_benchmarks.run_experiment` at the persistence level: load the
table from the result file if present (else start empty), run the sweep,
and leave the final table at the same file. -/
def ncpRunExperiment (simName : String) (fs : List (String × List ResultRow)) :
    List (String × List ResultRow) :=
  let df0 := (fsRead fs (ncp_results_filename simName)).getD []
  fsWrite fs (ncp_results_filename simName) (ncpRunFrom df0).1

/-- `KMN_benchmarks.run_experiment` at the persistence level: the start-up
load reads `filename` (working directory) while every save writes
`'results/' + filename`. -/
def kmnRunExperiment (simName : String) (fs : List (String × List ResultRow)) :
    List (String × List ResultRow) :=
  let df0 := (fsRead fs (kmn_results_filename simName)).getD []
  fsWrite fs (kmn_save_path simName) (kmnRunFrom df0).1

/-- The result table an NCP run leaves (and a later run reloads) at the
driver's result file. -/
def ncpTable (fs : List (String × List ResultRow)) (simName : String) : List ResultRow :=
  (fsRead fs (ncp_results_filename simName)).getD []

/-! ## Specification-side formulas for `DeepSVD.predict`

The claim about `predict` states the returned value as
`bias + Σᵢ σᵢ · Ux_i · E[V_i · f(Y)]`; the following definitions spell that
right-hand side out independently of the numpy pipeline, to be compared
with `DeepSVD.predictCompute`. -/

/-- The claimed bias term: the empirical mean of the observable over the
retained training rows. -/
def observableBias (fYv : List ℚ) : ℚ :=
  fYv.sum / (fYv.length : ℚ)

/-- The claimed `E[V_i · f(Y)]`: the empirical mean over training rows of
the product of the i-th post-processed `V` feature with the observable. -/
def observableVyMean (Vy : List (List ℚ)) (fYv : List ℚ) (i : ℕ) : ℚ :=
  (List.zipWith (fun r a => r.getD i 0 * a) Vy fYv).sum / (Vy.length : ℚ)

/-- The claimed per-test-row value
`bias + Σᵢ σᵢ · Ux_i · E[V_i · f(Y)]`. -/
def predictSpecRow (sing_val : List ℚ) (Vy : List (List ℚ)) (fYv : List ℚ)
    (u : List ℚ) : ℚ :=
  observableBias fYv +
    ∑ i ∈ Finset.range sing_val.length,
      sing_val.getD i 0 * u.getD i 0 * observableVyMean Vy fYv i

/-! ## Theorems -/

/-- C9: constructing `SymmGaussianMixture` with any finite group from
library (import) context — where the module-level name `G` is unbound
(`globalG = none`) — raises `NameError` before the constructor completes
(the group-averaging branch reads the unbound `G` in
`n_kernels * G.order()`), so no simulator instance is produced. -/
theorem symmGMM_import_context_raises_name_error
    (family : Option ℕ → ℕ → ℚ) (proj : List (List ℚ) → List (List ℚ))
    (invElem : ℕ → ℕ) (repAct repXact repYact : ℕ → List (List ℚ))
    (n_kernels ndim_x ndim_y : ℕ) (means_std : ℚ) (random_seed : Option ℕ) :
    symmGMMInit family proj none false invElem repAct repXact repYact
      n_kernels ndim_x ndim_y means_std random_seed
      = Except.error ⟨"NameError", "name G is not defined"⟩ := rfl

/-- C7: the sampled mixture parameters (weights, means, X-covariance and
Y-covariance blocks) of two `SymmGaussianMixture` constructions that share
`n_kernels`, the representation sizes and `means_std` are identical for
*any* two data seeds (present or absent), because every parameter draw
comes from `self.random_state_params`, seeded with the fixed `20`, and
never from `self.random_state`. -/
theorem symmGMM_params_independent_of_data_seed
    (family : Option ℕ → ℕ → ℚ) (proj : List (List ℚ) → List (List ℚ))
    (n_kernels ndim_x ndim_y : ℕ) (means_std : ℚ) (s1 s2 : Option ℕ) :
    symmInitParams family proj n_kernels ndim_x ndim_y means_std s1
      = symmInitParams family proj n_kernels ndim_x ndim_y means_std s2 := rfl

/-- C6 (code bug): `IterativeWhitening` never reaches the specified
behaviour.  `__init__` raises (`register_buffer` without a prior
`Module.__init__`), and `forward` raises `AssertionError` on every input
and every module state, because `assert X.dim == 2` compares the bound
method `X.dim` with the integer `2`; the exponential-averaging update and
the `(X - running_mean) @ running_whitening_mat` output are unreachable. -/
theorem iterative_whitening_forward_always_raises
    (input_size newton_iterations : ℕ) (eps momentum : ℚ)
    (st : IWState) (X : List (List ℚ)) :
    IterativeWhitening.init input_size newton_iterations eps momentum
      = Except.error "AttributeError: cannot assign buffer before Module.__init__() call"
    ∧ IterativeWhitening.forward st X
      = Except.error "AssertionError: Only supporting 2D Tensors" :=
  ⟨rfl, rfl⟩

/-- C8 (code bug): on an input whose feature width differs from
`input_size`, `_compute_whitening_matrix` does not raise the "invalid
input" `ValueError` at the shape check: the miswritten dimension assert
fires first (`AssertionError`), and even with the assert evaluated as
intended the shape-mismatch branch *returns* the `ValueError` object as an
ordinary value (`return ValueError(...)`) instead of raising it. -/
theorem whitening_shape_mismatch_not_raised
    (st : IWState) (X : List (List ℚ))
    (h : (X.headD []).length ≠ st.input_size) :
    IterativeWhitening.compute_whitening_matrix st X
      = Except.error "AssertionError: Only supporting 2D Tensors"
    ∧ IterativeWhitening.compute_whitening_matrix_intended_assert st X
      = Except.ok (IterativeWhitening.WhiteningOut.valueErrorObj
          IterativeWhitening.invalidInputMsg) := by
  refine ⟨rfl, ?_⟩
  unfold IterativeWhitening.compute_whitening_matrix_intended_assert
  rw [if_pos h]

/-- Witness for `whitening_shape_mismatch_not_raised`: a width-3 batch fed
to a module expecting width 2. -/
theorem whitening_shape_mismatch_not_raised_witness :
    (([[ (1:ℚ), 2, 3 ]].headD []).length ≠ (2 : ℕ))
    ∧ (IterativeWhitening.compute_whitening_matrix ⟨2, 5, 1/100000, 1/10, [0, 0], [[0, 0], [0, 0]]⟩ [[1, 2, 3]]
        = Except.error "AssertionError: Only supporting 2D Tensors"
      ∧ IterativeWhitening.compute_whitening_matrix_intended_assert ⟨2, 5, 1/100000, 1/10, [0, 0], [[0, 0], [0, 0]]⟩ [[1, 2, 3]]
        = Except.ok (IterativeWhitening.WhiteningOut.valueErrorObj
            IterativeWhitening.invalidInputMsg)) :=
  ⟨by decide,
   whitening_shape_mismatch_not_raised ⟨2, 5, 1/100000, 1/10, [0, 0], [[0, 0], [0, 0]]⟩
     [[1, 2, 3]] (by decide)⟩

set_option maxRecDepth 20000 in
/-- C4 (code bug): the KMN driver does not reload the table it persists.
After a completed first run from an empty file system, the pair
`(n_samples = 100, seed = 0)` is recorded in the table saved at
`results/EconDensity_KMN_results.pkl`, the start-up load path
`EconDensity_KMN_results.pkl` is a different path and still holds nothing,
and a rerun therefore recomputes the already-recorded pair instead of
skipping it. -/
theorem kmn_rerun_recomputes_recorded_pairs :
    kmn_results_filename "EconDensity" ≠ kmn_save_path "EconDensity"
    ∧ fsRead (kmnRunExperiment "EconDensity" []) (kmn_results_filename "EconDensity") = none
    ∧ hasPair ((fsRead (kmnRunExperiment "EconDensity" []) (kmn_save_path "EconDensity")).getD [])
        100 0 = true
    ∧ (100, 0) ∈ (kmnRunFrom ((fsRead (kmnRunExperiment "EconDensity" [])
        (kmn_results_filename "EconDensity")).getD [])).2 := by
  refine ⟨by decide, by decide, by decide, by decide⟩

/-- Sum of a list after dividing every entry by the same scalar. -/
theorem list_sum_map_div (l : List ℚ) (s : ℚ) :
    (l.map (fun w => w / s)).sum = l.sum / s := by
  induction l with
  | nil => simp
  | cons h t ih => simp [ih, add_div]

/-- Sum of the flattening of `n` copies of a list. -/
theorem list_sum_flatten_replicate (n : ℕ) (l : List ℚ) :
    ((List.replicate n l).flatten).sum = n * l.sum := by
  induction n with
  | zero => simp
  | succ k ih =>
    simp [List.replicate_succ, ih, add_mul, Nat.cast_succ]
    ring

/-- C3: `SymmGaussianMixture` mixture weights are non-negative and sum to
exactly 1 both before group symmetrization (after the normalisation in
`_sample_weights`, for any raw uniform draws that are non-negative with
positive sum, which holds for `random(n)` draws with `n ≥ 1`) and after
symmetrization replicates them once per group element (`gOrder ≥ 1`) and
renormalises. -/
theorem symmGMM_weights_sum_to_one (raw : List ℚ) (gOrder : ℕ)
    (hnn : ∀ w ∈ raw, 0 ≤ w) (hsum : 0 < raw.sum) (hg : 1 ≤ gOrder) :
    (∀ w ∈ sample_weights raw, 0 ≤ w) ∧ (sample_weights raw).sum = 1
    ∧ (∀ w ∈ symmetrizeWeights (sample_weights raw) gOrder, 0 ≤ w)
    ∧ (symmetrizeWeights (sample_weights raw) gOrder).sum = 1 := by
  have hs0 : raw.sum ≠ 0 := ne_of_gt hsum
  have h1 : (sample_weights raw).sum = 1 := by
    simp [sample_weights, list_sum_map_div, div_self hs0]
  have hmem : ∀ w ∈ sample_weights raw, 0 ≤ w := by
    intro w hw
    rcases List.mem_map.mp hw with ⟨x, hx, rfl⟩
    exact div_nonneg (hnn x hx) (le_of_lt hsum)
  refine ⟨hmem, h1, ?_, ?_⟩
  · intro w hw
    rcases List.mem_map.mp hw with ⟨x, hx, rfl⟩
    have hx' : x ∈ sample_weights raw := by
      rcases List.mem_flatten.mp hx with ⟨l, hl, hxl⟩
      have := List.eq_of_mem_replicate hl
      exact this ▸ hxl
    have hxs : (0 : ℚ) ≤ ((List.replicate gOrder (sample_weights raw)).flatten).sum := by
      rw [list_sum_flatten_replicate, h1, mul_one]
      exact Nat.cast_nonneg gOrder
    exact div_nonneg (hmem x hx') hxs
  · have hsum2 : ((List.replicate gOrder (sample_weights raw)).flatten).sum = (gOrder : ℚ) := by
      rw [list_sum_flatten_replicate, h1, mul_one]
    have hg0 : ((gOrder : ℚ)) ≠ 0 := by
      have hpos : (0 : ℕ) < gOrder := lt_of_lt_of_le Nat.zero_lt_one hg
      exact_mod_cast hpos.ne'
    simp only [symmetrizeWeights]
    rw [list_sum_map_div, div_self]
    rw [hsum2]
    exact hg0

/-- Witness for `symmGMM_weights_sum_to_one`: three raw draws and a group
of order 2. -/
theorem symmGMM_weights_sum_to_one_witness :
    ((∀ w ∈ ([1/2, 1/2, 1] : List ℚ), 0 ≤ w) ∧ (0 : ℚ) < ([1/2, 1/2, 1] : List ℚ).sum
      ∧ (1 : ℕ) ≤ 2)
    ∧ ((∀ w ∈ sample_weights [1/2, 1/2, 1], 0 ≤ w) ∧ (sample_weights [1/2, 1/2, 1]).sum = 1
    ∧ (∀ w ∈ symmetrizeWeights (sample_weights [1/2, 1/2, 1]) 2, 0 ≤ w)
    ∧ (symmetrizeWeights (sample_weights [1/2, 1/2, 1]) 2).sum = 1) :=
  ⟨⟨by norm_num [List.forall_mem_cons], by norm_num [List.sum_cons, List.sum_nil], by norm_num⟩,
   symmGMM_weights_sum_to_one [1/2, 1/2, 1] 2 (by norm_num [List.forall_mem_cons])
     (by norm_num [List.sum_cons, List.sum_nil]) (by norm_num)⟩

/-- Writing a table and reading it back at the same path yields the table
just written (the NCP driver's save path is its load path). -/
theorem fsRead_fsWrite (fs : List (String × List ResultRow)) (p : String)
    (t : List ResultRow) : fsRead (fsWrite fs p t) p = some t := by
  unfold fsRead fsWrite
  have hnone : (fs.filter (fun e => e.1 != p)).find? (fun e => e.1 == p) = none := by
    rw [List.find?_eq_none]
    intro x hx
    have hmem := List.of_mem_filter hx
    simpa using hmem
  rw [List.find?_append, hnone]
  simp

/-- Core resume property of the shared sweep skeleton: when the starting
table already records the pair `(n, s)`, folding `seedStep` over any pair
list leaves the number of `(n, s)` rows unchanged, keeps the pair
recorded, and never logs `(n, s)` as computed. -/
theorem sweep_preserves_recorded_pair
    (rows : ℕ → ℕ → List ResultRow) (n s : ℕ)
    (hrows : ∀ a b r, r ∈ rows a b → r.n_samples = a ∧ r.seed = b) :
    ∀ (pairs : List (ℕ × ℕ)) (df : List ResultRow) (comp : List (ℕ × ℕ)),
      hasPair df n s = true →
      countPair ((pairs.foldl (seedStep rows) (df, comp)).1) n s = countPair df n s
      ∧ hasPair ((pairs.foldl (seedStep rows) (df, comp)).1) n s = true
      ∧ ((n, s) ∈ (pairs.foldl (seedStep rows) (df, comp)).2 → (n, s) ∈ comp) := by
  intro pairs
  induction pairs with
  | nil => exact fun df comp h => ⟨rfl, h, fun hm => hm⟩
  | cons p ps ih =>
    intro df comp h
    have hdf : 0 < df.length := by
      by_contra h1
      have hlen : df.length = 0 := Nat.eq_zero_of_not_pos h1
      have hc : countPair df n s = 0 :=
        Nat.le_zero.mp (le_trans (List.length_filter_le _ _) (le_of_eq hlen))
      unfold hasPair at h
      rw [hc] at h
      simp at h
    by_cases h2 : hasPair df p.1 p.2
    · have hskip : seedStep rows (df, comp) p = (df, comp) := by
        simp [seedStep, hdf, h2]
      rw [List.foldl_cons, hskip]
      exact ih df comp h
    · have hps : seedStep rows (df, comp) p = (df ++ rows p.1 p.2, comp ++ [p]) := by
        simp [seedStep, hdf, h2]
      have hpne : p.1 ≠ n ∨ p.2 ≠ s := by
        by_contra hc
        push_neg at hc
        apply h2
        rw [hc.1, hc.2]
        exact h
      have hrowsnil : (rows p.1 p.2).filter (fun r => r.n_samples == n && r.seed == s) = [] := by
        apply List.filter_eq_nil_iff.mpr
        intro r hr
        have hra := hrows p.1 p.2 r hr
        cases hpne with
        | inl hne => simp [hra.1, hne]
        | inr hne => simp [hra.1, hra.2, hne]
      have hcnt : countPair (df ++ rows p.1 p.2) n s = countPair df n s := by
        unfold countPair
        rw [List.filter_append, hrowsnil]
        simp
      have hhp : hasPair (df ++ rows p.1 p.2) n s = true := by
        unfold hasPair at h ⊢
        rw [hcnt]
        exact h
      rw [List.foldl_cons, hps]
      obtain ⟨c1, c2, c3⟩ := ih (df ++ rows p.1 p.2) (comp ++ [p]) hhp
      refine ⟨by rw [c1, hcnt], c2, ?_⟩
      intro hm
      rcases List.mem_append.mp (c3 hm) with hin | hin
      · exact hin
      · exfalso
        simp only [List.mem_singleton] at hin
        have h1 : p.1 = n := by rw [← hin]
        have h2' : p.2 = s := by rw [← hin]
        cases hpne with
        | inl hne => exact hne h1
        | inr hne => exact hne h2'

/-- C5: running the NCP benchmark driver a second time on the same dataset
selector without clearing the result file is idempotent on recorded
combinations: the second run reloads exactly the table the first run
persisted (same file name), and for every `(n_samples, seed)` pair already
present, the pair is skipped (never logged as computed) and the number of
its rows in the final table is unchanged — no duplicate rows are appended. -/
theorem ncp_rerun_skips_recorded_pairs (simName : String)
    (fs : List (String × List ResultRow)) (n s : ℕ)
    (h : hasPair (ncpTable (ncpRunExperiment simName fs) simName) n s = true) :
    countPair (ncpTable (ncpRunExperiment simName (ncpRunExperiment simName fs)) simName) n s
      = countPair (ncpTable (ncpRunExperiment simName fs) simName) n s
    ∧ (n, s) ∉ (ncpRunFrom (ncpTable (ncpRunExperiment simName fs) simName)).2 := by
  have hreload : ncpTable (ncpRunExperiment simName (ncpRunExperiment simName fs)) simName
      = (ncpRunFrom (ncpTable (ncpRunExperiment simName fs) simName)).1 := by
    unfold ncpTable ncpRunExperiment
    rw [fsRead_fsWrite]
    rfl
  have hrows : ∀ a b r, r ∈ ncpNewRows a b → r.n_samples = a ∧ r.seed = b := by
    intro a b r hr
    simp only [ncpNewRows, List.mem_cons, List.not_mem_nil, or_false] at hr
    rcases hr with rfl | rfl | rfl <;> exact ⟨rfl, rfl⟩
  obtain ⟨c1, _c2, c3⟩ := sweep_preserves_recorded_pair ncpNewRows n s hrows
    (pairsLadder ncpSeeds) (ncpTable (ncpRunExperiment simName fs) simName) [] h
  refine ⟨?_, ?_⟩
  · rw [hreload]
    exact c1
  · intro hm
    exact absurd (c3 hm) (List.not_mem_nil _)

set_option maxRecDepth 20000 in
/-- Witness for `ncp_rerun_skips_recorded_pairs`: a full first run from an
empty file system records the pair `(100, 0)`; the second run preserves
its row count and does not recompute it. -/
theorem ncp_rerun_skips_recorded_pairs_witness :
    (hasPair (ncpTable (ncpRunExperiment "GaussianMixture" []) "GaussianMixture") 100 0 = true)
    ∧ (countPair (ncpTable (ncpRunExperiment "GaussianMixture"
          (ncpRunExperiment "GaussianMixture" [])) "GaussianMixture") 100 0
        = countPair (ncpTable (ncpRunExperiment "GaussianMixture" []) "GaussianMixture") 100 0
      ∧ (100, 0) ∉ (ncpRunFrom (ncpTable (ncpRunExperiment "GaussianMixture" [])
          "GaussianMixture")).2) :=
  ⟨by decide, ncp_rerun_skips_recorded_pairs "GaussianMixture" [] 100 0 (by decide)⟩

/-- `nan` absorbs on the right of IEEE addition. -/
theorem FVal.add_nan (v : FVal) : FVal.add v FVal.nan = FVal.nan := by
  cases v <;> rfl

/-- A float sum started from `nan` stays `nan`. -/
theorem foldl_add_nan (l : List FVal) : l.foldl FVal.add FVal.nan = FVal.nan := by
  induction l with
  | nil => rfl
  | cons x t ih =>
    have hx : FVal.add FVal.nan x = FVal.nan := by cases x <;> rfl
    simp only [List.foldl_cons, hx, ih]

/-- The float sum of a non-empty array of `nan`s is `nan`. -/
theorem sumF_all_nan (l : List FVal) (hne : l ≠ []) (hall : ∀ x ∈ l, x = FVal.nan) :
    sumF l = FVal.nan := by
  cases l with
  | nil => exact absurd rfl hne
  | cons x t =>
    have hx : x = FVal.nan := hall x (List.mem_cons_self x t)
    unfold sumF
    rw [List.foldl_cons, hx, FVal.add_nan, foldl_add_nan]

/-- Multiplying any float by `0.0` and then by `inf` yields `nan`. -/
theorem mul_fin_zero_mul_inf (v : FVal) : (v.mul (FVal.fin 0)).mul FVal.inf = FVal.nan := by
  cases v <;> simp [FVal.mul]

/-- An element of a `zipWith` comes from an element of each list. -/
theorem mem_zipWith_exists {α β γ : Type} {f : α → β → γ} :
    ∀ {l1 : List α} {l2 : List β} {x : γ}, x ∈ List.zipWith f l1 l2 →
      ∃ a b, a ∈ l1 ∧ b ∈ l2 ∧ x = f a b := by
  intro l1
  induction l1 with
  | nil => intro l2 x hx; simp at hx
  | cons a t ih =>
    intro l2 x hx
    cases l2 with
    | nil => simp at hx
    | cons b u =>
      rcases List.mem_cons.mp hx with rfl | hx'
      · exact ⟨a, b, List.mem_cons_self a t, List.mem_cons_self b u, rfl⟩
      · rcases ih hx' with ⟨a', b', ha, hb, rfl⟩
        exact ⟨a', b', List.mem_cons_of_mem a ha, List.mem_cons_of_mem b hb, rfl⟩

/-- A masked column sum over an all-`False` mask is zero. -/
theorem zipWith_masked_sum_zero (f : List ℚ → ℚ) :
    ∀ (M : List (List ℚ)) (mask : List Bool), (∀ b ∈ mask, b = false) →
      (List.zipWith (fun r b => if b then f r else 0) M mask).sum = 0 := by
  intro M
  induction M with
  | nil => intro mask _; simp
  | cons r t ih =>
    intro mask hm
    cases mask with
    | nil => simp
    | cons b u =>
      have hb : b = false := hm b (List.mem_cons_self b u)
      have hu : ∀ c ∈ u, c = false := fun c hc => hm c (List.mem_cons_of_mem b hc)
      simp only [List.zipWith, hb, List.sum_cons, ih u hu, add_zero]
      simp

/-- `M[mask, :].sum(axis=0) * n ** -1` over an all-`False` mask is the
zero vector. -/
theorem maskedRowMean_all_false (M : List (List ℚ)) (mask : List Bool) (n : ℕ)
    (hf : ∀ b ∈ mask, b = false) :
    maskedRowMean M mask n = List.replicate (M.headD []).length 0 := by
  unfold maskedRowMean
  have hzero : ∀ i : ℕ,
      (List.zipWith (fun r b => if b then r.getD i 0 else 0) M mask).sum * (n : ℚ)⁻¹ = 0 := by
    intro i
    rw [zipWith_masked_sum_zero (fun r => r.getD i 0) M mask hf, zero_mul]
  calc (List.range (M.headD []).length).map
        (fun i => (List.zipWith (fun r b => if b then r.getD i 0 else 0) M mask).sum * (n : ℚ)⁻¹)
      = (List.range (M.headD []).length).map (fun _ => (0 : ℚ)) := by
        apply List.map_congr_left
        intro i _
        exact hzero i
    _ = List.replicate (M.headD []).length 0 := by
        rw [List.map_const', List.length_range]

/-- The mean of an all-`False` boolean mask is zero. -/
theorem boolMean_all_false (mask : List Bool) (hf : ∀ b ∈ mask, b = false) :
    boolMean mask = 0 := by
  unfold boolMean
  have : mask.countP (fun b => b) = 0 := by
    rw [List.countP_eq_zero]
    intro b hb
    simp [hf b hb]
  rw [this]
  simp

/-- Length of a masked row mean: one entry per column of the first row. -/
theorem maskedRowMean_length (M : List (List ℚ)) (mask : List Bool) (n : ℕ) :
    (maskedRowMean M mask n).length = (M.headD []).length := by
  unfold maskedRowMean
  simp

/-- Every correction term of `conditional_probability` is `nan` when the
`Ux` mask selected no row (`Ux_A = 0⃗`) and the `A`-rate inverted to `inf`. -/
theorem terms_nan_emptyA (sing_val : List ℚ) (dU : ℕ) (Vy_B : List ℚ) :
    ∀ x ∈ List.zipWith (fun su v => (su.mul FVal.inf).mul (FVal.fin v))
        (List.zipWith (fun s a => (FVal.fin s).mul (FVal.fin a)) sing_val
          (List.replicate dU 0)) Vy_B,
      x = FVal.nan := by
  intro x hx
  obtain ⟨su, v, hsu, _hv, rfl⟩ := mem_zipWith_exists hx
  obtain ⟨s, a, _hs, ha, rfl⟩ := mem_zipWith_exists hsu
  have ha0 : a = 0 := List.eq_of_mem_replicate ha
  subst ha0
  simp [FVal.mul]

/-- Every correction term of `joint_probability` is `nan` when the `A`
mask selected no row, whatever the `B`-rate factor is. -/
theorem terms_nan_emptyA_joint (sing_val : List ℚ) (dU : ℕ) (Vy_B : List ℚ)
    (m : ℕ) (rB : FVal) :
    ∀ x ∈ List.zipWith (fun t r => t.mul r)
        (List.zipWith (fun su v => (su.mul FVal.inf).mul (FVal.fin v))
          (List.zipWith (fun s a => (FVal.fin s).mul (FVal.fin a)) sing_val
            (List.replicate dU 0)) Vy_B)
        (List.replicate m rB),
      x = FVal.nan := by
  intro x hx
  obtain ⟨t, r, ht, _hr, rfl⟩ := mem_zipWith_exists hx
  have htn : t = FVal.nan := terms_nan_emptyA sing_val dU Vy_B t ht
  rw [htn]
  cases r <;> rfl

/-- Every correction term of `joint_probability` is `nan` when the `B`
mask selected no row (`Vy_B = 0⃗` and the `B`-rate inverted to `inf`),
whatever the `A`-rate factor is. -/
theorem terms_nan_emptyB (inner : List FVal) (dV m : ℕ) (rA : FVal) :
    ∀ x ∈ List.zipWith (fun t r => t.mul r)
        (List.zipWith (fun su v => (su.mul rA).mul (FVal.fin v)) inner
          (List.replicate dV 0))
        (List.replicate m FVal.inf),
      x = FVal.nan := by
  intro x hx
  obtain ⟨t, r, ht, hr, rfl⟩ := mem_zipWith_exists hx
  have hrr : r = FVal.inf := List.eq_of_mem_replicate hr
  obtain ⟨su, v, _hsu, hv, rfl⟩ := mem_zipWith_exists ht
  have hv0 : v = 0 := List.eq_of_mem_replicate hv
  subst hv0
  subst hrr
  exact mul_fin_zero_mul_inf (su.mul rA)

/-- C10: when `interval_A` contains no retained training `X` sample,
`conditional_probability` and `joint_probability` evaluate
`x_A.mean() ** -1` with a zero mean — a float division by zero that numpy
answers with `inf` (a `RuntimeWarning`, not an exception) — and the
all-zero `Ux_A` turns every correction term into `nan`, so both return the
non-finite `nan` instead of raising; `joint_probability` does the same via
`y_B.mean() ** -1` when `interval_B` contains no retained training `Y`
sample. -/
theorem cond_joint_empty_interval_nonfinite
    (sing_val : List ℚ) (Ux Vy : List (List ℚ)) (X_train Y_train : List ℚ)
    (aLo aHi bLo bHi : ℚ)
    (hd : 0 < sing_val.length)
    (hU : (Ux.headD []).length = sing_val.length)
    (hV : (Vy.headD []).length = sing_val.length) :
    ((∀ b ∈ indicator_fn X_train aLo aHi, b = false) →
        DeepSVD.conditional_probability sing_val Ux Vy X_train Y_train aLo aHi bLo bHi
          = FVal.nan
      ∧ DeepSVD.joint_probability sing_val Ux Vy X_train Y_train aLo aHi bLo bHi
          = FVal.nan)
    ∧ ((∀ b ∈ indicator_fn Y_train bLo bHi, b = false) →
        DeepSVD.joint_probability sing_val Ux Vy X_train Y_train aLo aHi bLo bHi
          = FVal.nan)
    ∧ FVal.isFinite FVal.nan = false := by
  refine ⟨?_, ?_, rfl⟩
  · intro hA
    have hbmA : boolMean (indicator_fn X_train aLo aHi) = 0 :=
      boolMean_all_false _ hA
    have hrA : FVal.powNegOne (FVal.fin (boolMean (indicator_fn X_train aLo aHi)))
        = FVal.inf := by
      rw [hbmA]
      simp [FVal.powNegOne]
    have hUxA : maskedRowMean Ux (indicator_fn X_train aLo aHi) Y_train.length
        = List.replicate (Ux.headD []).length 0 :=
      maskedRowMean_all_false _ _ _ hA
    constructor
    · simp only [DeepSVD.conditional_probability, hrA, hUxA]
      have hlen : (List.zipWith
          (fun su v => (su.mul FVal.inf).mul (FVal.fin v))
          (List.zipWith (fun s a => (FVal.fin s).mul (FVal.fin a)) sing_val
            (List.replicate (Ux.headD []).length 0))
          (maskedRowMean Vy (indicator_fn Y_train bLo bHi) Y_train.length)).length
          = sing_val.length := by
        rw [List.length_zipWith, List.length_zipWith, List.length_replicate,
          maskedRowMean_length, hU, hV]
        simp
      rw [sumF_all_nan _ (List.ne_nil_of_length_pos (by rw [hlen]; exact hd))
        (terms_nan_emptyA sing_val (Ux.headD []).length _), FVal.add_nan]
    · simp only [DeepSVD.joint_probability, hrA, hUxA]
      have hlen : (List.zipWith (fun t r => t.mul r)
          (List.zipWith (fun su v => (su.mul FVal.inf).mul (FVal.fin v))
            (List.zipWith (fun s a => (FVal.fin s).mul (FVal.fin a)) sing_val
              (List.replicate (Ux.headD []).length 0))
            (maskedRowMean Vy (indicator_fn Y_train bLo bHi) Y_train.length))
          (List.replicate (Vy.headD []).length
            (FVal.powNegOne (FVal.fin (boolMean (indicator_fn Y_train bLo bHi)))))).length
          = sing_val.length := by
        rw [List.length_zipWith, List.length_zipWith, List.length_zipWith,
          List.length_replicate, List.length_replicate, maskedRowMean_length, hU, hV]
        simp
      rw [sumF_all_nan _ (List.ne_nil_of_length_pos (by rw [hlen]; exact hd))
        (terms_nan_emptyA_joint sing_val (Ux.headD []).length _ _ _), FVal.add_nan]
  · intro hB
    have hbmB : boolMean (indicator_fn Y_train bLo bHi) = 0 :=
      boolMean_all_false _ hB
    have hrB : FVal.powNegOne (FVal.fin (boolMean (indicator_fn Y_train bLo bHi)))
        = FVal.inf := by
      rw [hbmB]
      simp [FVal.powNegOne]
    have hVyB : maskedRowMean Vy (indicator_fn Y_train bLo bHi) Y_train.length
        = List.replicate (Vy.headD []).length 0 :=
      maskedRowMean_all_false _ _ _ hB
    simp only [DeepSVD.joint_probability, hrB, hVyB]
    have hlen : (List.zipWith (fun t r => t.mul r)
        (List.zipWith
          (fun su v => (su.mul (FVal.powNegOne
            (FVal.fin (boolMean (indicator_fn X_train aLo aHi))))).mul (FVal.fin v))
          (List.zipWith (fun s a => (FVal.fin s).mul (FVal.fin a)) sing_val
            (maskedRowMean Ux (indicator_fn X_train aLo aHi) Y_train.length))
          (List.replicate (Vy.headD []).length 0))
        (List.replicate (Vy.headD []).length FVal.inf)).length
        = sing_val.length := by
      rw [List.length_zipWith, List.length_zipWith, List.length_zipWith,
        List.length_replicate, List.length_replicate, maskedRowMean_length, hU, hV]
      simp
    rw [sumF_all_nan _ (List.ne_nil_of_length_pos (by rw [hlen]; exact hd))
      (terms_nan_emptyB _ (Vy.headD []).length _ _), FVal.add_nan]

/-- Witness for `cond_joint_empty_interval_nonfinite`: one singular value,
training point `X = 5` outside `A = [0, 1]` and `Y = 0` outside
`B = [2, 3]`. -/
theorem cond_joint_empty_interval_nonfinite_witness :
    (0 < ([(1 : ℚ)] : List ℚ).length
      ∧ (([[(1 : ℚ)]] : List (List ℚ)).headD []).length = ([(1 : ℚ)] : List ℚ).length
      ∧ (([[(1 : ℚ)]] : List (List ℚ)).headD []).length = ([(1 : ℚ)] : List ℚ).length)
    ∧ (((∀ b ∈ indicator_fn [5] 0 1, b = false) →
          DeepSVD.conditional_probability [1] [[1]] [[1]] [5] [0] 0 1 2 3 = FVal.nan
        ∧ DeepSVD.joint_probability [1] [[1]] [[1]] [5] [0] 0 1 2 3 = FVal.nan)
      ∧ ((∀ b ∈ indicator_fn [0] 2 3, b = false) →
          DeepSVD.joint_probability [1] [[1]] [[1]] [5] [0] 0 1 2 3 = FVal.nan)
      ∧ FVal.isFinite FVal.nan = false) :=
  ⟨⟨by decide, by decide, by decide⟩,
   cond_joint_empty_interval_nonfinite [1] [[1]] [[1]] [5] [0] 0 1 2 3
     (by decide) (by decide) (by decide)⟩

/-- The sum of an elementwise product of three aligned lists as an indexed
sum over the first list's length (out-of-range positions contribute `0`). -/
theorem sum_zipWith3_mul (s : List ℚ) :
    ∀ (u c : List ℚ),
      (List.zipWith (· * ·) (List.zipWith (· * ·) s u) c).sum
        = ∑ i ∈ Finset.range s.length, s.getD i 0 * u.getD i 0 * c.getD i 0 := by
  induction s with
  | nil => intro u c; simp
  | cons s0 st ih =>
    intro u c
    cases u with
    | nil => simp
    | cons u0 ut =>
      cases c with
      | nil => simp
      | cons c0 ct =>
        simp only [List.zipWith, List.sum_cons, List.length_cons, ih ut ct]
        rw [Finset.sum_range_succ']
        simp [List.getD_cons_succ, List.getD_cons_zero, add_comm]

/-- `np.mean` of `np.outer(fYv, np.ones(d))` is the plain mean of `fYv`
(each value is replicated `d > 0` times, which cancels). -/
theorem npMean_outer_ones (fYv : List ℚ) (d : ℕ) (hd : d ≠ 0) :
    npMean (npOuter fYv (npOnes d)) = observableBias fYv := by
  have hrow : ∀ a : ℚ, ((npOnes d).map (fun b => a * b)).sum = (d : ℚ) * a := by
    intro a
    simp [npOnes, List.map_replicate, List.sum_replicate, nsmul_eq_mul]
  have hsum : matEntrySum (npOuter fYv (npOnes d)) = (d : ℚ) * fYv.sum := by
    unfold matEntrySum npOuter
    rw [List.map_map]
    have : (List.sum ∘ fun a => (npOnes d).map (fun b => a * b))
        = fun a => (d : ℚ) * a := by
      funext a
      exact hrow a
    rw [this]
    have := List.sum_map_mul_left fYv (fun x => x) ((d : ℚ))
    simpa using this
  have hcount : matEntryCount (npOuter fYv (npOnes d)) = fYv.length * d := by
    unfold matEntryCount npOuter
    rw [List.map_map]
    have : (List.length ∘ fun a => (npOnes d).map (fun b => a * b))
        = fun _ => d := by
      funext a
      simp [npOnes]
    rw [this, List.map_const', List.sum_replicate, smul_eq_mul]
  unfold npMean observableBias
  rw [hsum, hcount]
  have hd' : ((d : ℚ)) ≠ 0 := by exact_mod_cast hd
  rw [Nat.cast_mul, mul_comm ((fYv.length : ℚ)) ((d : ℚ)), mul_div_mul_left _ _ hd']

/-- `getD` distributes over an elementwise product at in-range positions. -/
theorem getD_zipWith_mul (r : List ℚ) :
    ∀ (w : List ℚ) (i : ℕ), i < r.length → i < w.length →
      (List.zipWith (· * ·) r w).getD i 0 = r.getD i 0 * w.getD i 0 := by
  induction r with
  | nil => intro w i hir _; simp at hir
  | cons x t ih =>
    intro w i hir hiw
    cases w with
    | nil => simp at hiw
    | cons y u =>
      cases i with
      | zero => simp
      | succ j =>
        simp only [List.zipWith, List.getD_cons_succ]
        exact ih u j (Nat.lt_of_succ_lt_succ hir) (Nat.lt_of_succ_lt_succ hiw)

/-- `getD` on a replicated list at an in-range position. -/
theorem getD_replicate_of_lt (d : ℕ) (a : ℚ) (i : ℕ) (hi : i < d) :
    (List.replicate d a).getD i 0 = a := by
  simp [List.getD_eq_getElem?_getD, List.getElem?_replicate, hi]

/-- `getD` on a function tabulated over `List.range`. -/
theorem getD_range_map (d : ℕ) (g : ℕ → ℚ) (i : ℕ) (hi : i < d) :
    ((List.range d).map g).getD i 0 = g i := by
  simp [List.getD_eq_getElem?_getD, List.getElem?_range, hi]

/-- Column `i` of `Vy * np.outer(fYv, np.ones(d))`: the per-row products
of the i-th `V` feature with the observable value. -/
theorem hadamard_outer_col (d i : ℕ) (hi : i < d) :
    ∀ (Vy : List (List ℚ)) (fYv : List ℚ), (∀ r ∈ Vy, r.length = d) →
      (hadamardMul Vy (npOuter fYv (npOnes d))).map (fun r => r.getD i 0)
        = List.zipWith (fun r a => r.getD i 0 * a) Vy fYv := by
  intro Vy
  induction Vy with
  | nil => intro fYv _; simp [hadamardMul, npOuter]
  | cons r0 Vt ih =>
    intro fYv hw
    cases fYv with
    | nil => simp [hadamardMul, npOuter]
    | cons a0 ft =>
      have hr0 : r0.length = d := hw r0 (List.mem_cons_self r0 Vt)
      have hrow : (npOnes d).map (fun b => a0 * b) = List.replicate d a0 := by
        simp [npOnes, List.map_replicate]
      have hhead : (List.zipWith (· * ·) r0 ((npOnes d).map (fun b => a0 * b))).getD i 0
          = r0.getD i 0 * a0 := by
        rw [hrow, getD_zipWith_mul r0 (List.replicate d a0) i (by rw [hr0]; exact hi)
          (by rw [List.length_replicate]; exact hi), getD_replicate_of_lt d a0 i hi]
      have htail := ih ft (fun r hr => hw r (List.mem_cons_of_mem r0 hr))
      simp only [hadamardMul, npOuter, List.map_cons, List.zipWith, List.map] at htail ⊢
      rw [hhead, htail]

/-- In a non-empty rectangular matrix, the first row has the common width. -/
theorem headD_length_of_rect (Vy : List (List ℚ)) (d : ℕ)
    (hVw : ∀ r ∈ Vy, r.length = d) (hn0 : 0 < Vy.length) :
    (Vy.headD []).length = d := by
  cases Vy with
  | nil => simp at hn0
  | cons r0 Vt => exact hVw r0 (List.mem_cons_self r0 Vt)

/-- Entry `i` of `np.mean(Vy * np.outer(fYv, np.ones(d)), axis=0)` is the
claimed empirical mean `E[V_i · f(Y)]`. -/
theorem colMean_hadamard_getD (Vy : List (List ℚ)) (fYv : List ℚ) (d i : ℕ)
    (hVw : ∀ r ∈ Vy, r.length = d) (hn : Vy.length = fYv.length)
    (hn0 : 0 < Vy.length) (hi : i < d) :
    (colMean (hadamardMul Vy (npOuter fYv (npOnes d)))).getD i 0
      = observableVyMean Vy fYv i := by
  cases Vy with
  | nil => simp at hn0
  | cons r0 Vt =>
    cases fYv with
    | nil => simp at hn
    | cons a0 ft =>
      have hr0 : r0.length = d := hVw r0 (List.mem_cons_self r0 Vt)
      have hhead : ((hadamardMul (r0 :: Vt) (npOuter (a0 :: ft) (npOnes d))).headD []).length
          = d := by
        simp [hadamardMul, npOuter, npOnes, hr0]
      have hlen : (hadamardMul (r0 :: Vt) (npOuter (a0 :: ft) (npOnes d))).length
          = (r0 :: Vt).length := by
        simp only [hadamardMul, npOuter]
        rw [List.length_zipWith, List.length_map]
        simp only [List.length_cons] at hn ⊢
        rw [hn]
        simp
      unfold colMean
      rw [hhead, getD_range_map d _ i hi,
        hadamard_outer_col d i hi (r0 :: Vt) (a0 :: ft) hVw, hlen]
      rfl

/-- The combination arithmetic of `predict` computes exactly the claimed
`bias + Σᵢ σᵢ · Ux_i · E[V_i · f(Y)]` for every test row. -/
theorem predictCompute_eq_spec (Ux : List (List ℚ)) (sing_val : List ℚ)
    (Vy : List (List ℚ)) (fYv : List ℚ)
    (hVw : ∀ r ∈ Vy, r.length = sing_val.length)
    (hn : Vy.length = fYv.length) (hn0 : 0 < Vy.length)
    (hd : 0 < sing_val.length) :
    DeepSVD.predictCompute Ux sing_val Vy fYv
      = Ux.map (predictSpecRow sing_val Vy fYv) := by
  have hdV : (Vy.headD []).length = sing_val.length :=
    headD_length_of_rect Vy sing_val.length hVw hn0
  simp only [DeepSVD.predictCompute, hdV, List.map_map]
  apply List.map_congr_left
  intro u _
  show npMean (npOuter fYv (npOnes sing_val.length))
      + (List.zipWith (· * ·) (List.zipWith (· * ·) sing_val u)
          (colMean (hadamardMul Vy (npOuter fYv (npOnes sing_val.length))))).sum
      = predictSpecRow sing_val Vy fYv u
  unfold predictSpecRow
  congr 1
  · exact npMean_outer_ones fYv sing_val.length hd.ne'
  · rw [sum_zipWith3_mul]
    apply Finset.sum_congr rfl
    intro i hi
    rw [colMean_hadamard_getD Vy fYv sing_val.length i hVw hn hn0 (Finset.mem_range.mp hi)]

/-- C1: for every fitted model, test input and observable, `predict`
returns, per test row, `bias + Σᵢ σᵢ · Ux_i · E[V_i · f(Y)]` — where the
bias is the mean of the observable over the retained training `Y`
broadcast across the feature width, and `E[V_i · f(Y)]` is the empirical
mean over training rows of the i-th post-processed `V` feature times the
observable — for the `postprocessing=True` path and the raw
`postprocessing=False` path alike. -/
theorem predict_is_bias_plus_expansion (m : FittedDeepSVD) (X_test : List (List ℚ))
    (observable : List (List ℚ) → List ℚ) (postprocessing : Bool)
    (Ux : List (List ℚ)) (sing_val : List ℚ) (Vy : List (List ℚ))
    (ht : (if postprocessing then m.postprocessUV X_test else m.postprocessUVtmp X_test)
        = (Ux, sing_val, Vy))
    (hVw : ∀ r ∈ Vy, r.length = sing_val.length)
    (hn : Vy.length = (observable m.trainingY).length)
    (hn0 : 0 < Vy.length) (hd : 0 < sing_val.length) :
    DeepSVD.predict m X_test observable postprocessing
      = Ux.map (predictSpecRow sing_val Vy (observable m.trainingY)) := by
  unfold DeepSVD.predict
  rw [ht]
  exact predictCompute_eq_spec Ux sing_val Vy (observable m.trainingY) hVw hn hn0 hd

/-- Witness for `predict_is_bias_plus_expansion`: a one-feature model with
`Ux = [[1]]`, `σ = [1]`, `Vy = [[2]]`, one retained training row `Y = [3]`
and the identity observable, on the post-processing path. -/
theorem predict_is_bias_plus_expansion_witness :
    ((if true then
        (FittedDeepSVD.mk [0] [[3]] (fun _ => ([[1]], [1], [[2]]))
          (fun _ => ([[1]], [1], [[2]]))).postprocessUV [[0]]
      else
        (FittedDeepSVD.mk [0] [[3]] (fun _ => ([[1]], [1], [[2]]))
          (fun _ => ([[1]], [1], [[2]]))).postprocessUVtmp [[0]])
        = ([[(1 : ℚ)]], [(1 : ℚ)], [[(2 : ℚ)]])
      ∧ (∀ r ∈ [[(2 : ℚ)]], r.length = [(1 : ℚ)].length)
      ∧ [[(2 : ℚ)]].length
          = ((fun yy : List (List ℚ) => yy.map (fun r => r.headD 0)) [[(3 : ℚ)]]).length
      ∧ 0 < [[(2 : ℚ)]].length ∧ 0 < [(1 : ℚ)].length)
    ∧ DeepSVD.predict
        (FittedDeepSVD.mk [0] [[3]] (fun _ => ([[1]], [1], [[2]]))
          (fun _ => ([[1]], [1], [[2]])))
        [[0]] (fun yy : List (List ℚ) => yy.map (fun r => r.headD 0)) true
      = [[(1 : ℚ)]].map (predictSpecRow [1] [[2]]
          ((fun yy : List (List ℚ) => yy.map (fun r => r.headD 0)) [[(3 : ℚ)]])) :=
  ⟨⟨rfl, by decide, by decide, by decide, by decide⟩,
   predict_is_bias_plus_expansion
     (FittedDeepSVD.mk [0] [[3]] (fun _ => ([[1]], [1], [[2]]))
       (fun _ => ([[1]], [1], [[2]])))
     [[0]] (fun yy : List (List ℚ) => yy.map (fun r => r.headD 0)) true
     [[1]] [1] [[2]] rfl (by decide) (by decide) (by decide) (by decide)⟩

/-- Every clamped eigenvalue is non-negative: with `0 < n·eps < 1`, an
eigenvalue can survive the clamp `L > max(L)·n·eps` only when it is
positive (if the largest eigenvalue is non-positive, the threshold lies at
or above it and everything is clamped). -/
theorem clampedEigs_nonneg {n : ℕ} [NeZero n] (L : Fin n → ℝ)
    (hne : (n : ℝ) * machEps < 1) : ∀ i, 0 ≤ clampedEigs L i := by
  intro i
  unfold clampedEigs
  split_ifs with h
  · have hM : L i ≤ Finset.univ.sup' Finset.univ_nonempty L :=
      Finset.le_sup' L (Finset.mem_univ i)
    have hEps : (0 : ℝ) < machEps := by
      unfold machEps
      positivity
    have hn1 : (1 : ℝ) ≤ (n : ℝ) := by
      exact_mod_cast Nat.one_le_iff_ne_zero.mpr (NeZero.ne n)
    have hprod : (0 : ℝ) < (n : ℝ) * machEps := by positivity
    rcases le_or_lt (Finset.univ.sup' Finset.univ_nonempty L) 0 with hM0 | hM0
    · exfalso
      have hth : Finset.univ.sup' Finset.univ_nonempty L ≤ eighThreshold L := by
        unfold eighThreshold
        rw [mul_assoc]
        nlinarith [mul_nonneg (neg_nonneg.mpr hM0)
          (by linarith : (0 : ℝ) ≤ 1 - (n : ℝ) * machEps)]
      exact absurd (lt_of_lt_of_le h (le_trans hM hth)) (lt_irrefl _)
    · have hth : (0 : ℝ) < eighThreshold L := by
        unfold eighThreshold
        rw [mul_assoc]
        exact mul_pos hM0 hprod
      exact le_of_lt (lt_trans hth h)
  · exact le_refl 0

/-- C2: `sqrtmh` on a symmetric matrix with eigendecomposition `(L, Q)`
(`Qᵀ Q = 1`, `A = Q diag(L) Qᵀ`) is `Q · diag(√L') · Qᵀ` with every
eigenvalue at or below `max(L)·n·eps` replaced by zero; consequently its
square is `Q · diag(L') · Qᵀ`, which acts on each eigenvector column of
`Q` exactly as `A` does in the retained eigendirections and as zero in the
clamped ones. -/
theorem sqrtmh_square_reconstructs {n : ℕ} [NeZero n] (L : Fin n → ℝ)
    (Q : Matrix (Fin n) (Fin n) ℝ) (hQ : Qᵀ * Q = 1)
    (hne : (n : ℝ) * machEps < 1) :
    sqrtmh L Q = Q * Matrix.diagonal (fun i => Real.sqrt (clampedEigs L i)) * Qᵀ
    ∧ sqrtmh L Q * sqrtmh L Q = Q * Matrix.diagonal (clampedEigs L) * Qᵀ
    ∧ ∀ i j, (sqrtmh L Q * sqrtmh L Q * Q) j i
        = if eighThreshold L < L i then (Q * Matrix.diagonal L * Qᵀ * Q) j i else 0 := by
  have hnn := clampedEigs_nonneg L hne
  have key : ∀ f : Fin n → ℝ,
      (Q * Matrix.diagonal f * Qᵀ) * (Q * Matrix.diagonal f * Qᵀ)
        = Q * (Matrix.diagonal f * Matrix.diagonal f) * Qᵀ := by
    intro f
    have hmid : Qᵀ * (Q * (Matrix.diagonal f * Qᵀ)) = Matrix.diagonal f * Qᵀ := by
      rw [← mul_assoc, hQ, one_mul]
    calc (Q * Matrix.diagonal f * Qᵀ) * (Q * Matrix.diagonal f * Qᵀ)
        = Q * (Matrix.diagonal f * (Qᵀ * (Q * (Matrix.diagonal f * Qᵀ)))) := by
          simp only [mul_assoc]
      _ = Q * (Matrix.diagonal f * (Matrix.diagonal f * Qᵀ)) := by rw [hmid]
      _ = Q * (Matrix.diagonal f * Matrix.diagonal f) * Qᵀ := by simp only [mul_assoc]
  have hsq : sqrtmh L Q * sqrtmh L Q = Q * Matrix.diagonal (clampedEigs L) * Qᵀ := by
    unfold sqrtmh
    rw [key, Matrix.diagonal_mul_diagonal]
    have hss : (fun i => Real.sqrt (clampedEigs L i) * Real.sqrt (clampedEigs L i))
        = clampedEigs L := by
      funext i
      exact Real.mul_self_sqrt (hnn i)
    rw [hss]
  refine ⟨rfl, hsq, ?_⟩
  intro i j
  have hAQ : Q * Matrix.diagonal L * Qᵀ * Q = Q * Matrix.diagonal L := by
    rw [mul_assoc (Q * Matrix.diagonal L), hQ, mul_one]
  have hSQ : sqrtmh L Q * sqrtmh L Q * Q = Q * Matrix.diagonal (clampedEigs L) := by
    rw [hsq, mul_assoc (Q * Matrix.diagonal (clampedEigs L)), hQ, mul_one]
  rw [hSQ, hAQ, Matrix.mul_diagonal, Matrix.mul_diagonal]
  simp only [clampedEigs]
  split_ifs with h
  · rfl
  · exact mul_zero _

/-- Witness for `sqrtmh_square_reconstructs`: the 1×1 matrix `A = [[4]]`
with eigendecomposition `L = (4)`, `Q = I`. -/
theorem sqrtmh_square_reconstructs_witness :
    (((1 : Matrix (Fin 1) (Fin 1) ℝ)ᵀ * 1 = 1) ∧ ((1 : ℕ) : ℝ) * machEps < 1)
    ∧ (sqrtmh (fun _ : Fin 1 => (4 : ℝ)) 1
        = 1 * Matrix.diagonal (fun i => Real.sqrt (clampedEigs (fun _ : Fin 1 => (4 : ℝ)) i))
          * (1 : Matrix (Fin 1) (Fin 1) ℝ)ᵀ
      ∧ sqrtmh (fun _ : Fin 1 => (4 : ℝ)) 1 * sqrtmh (fun _ : Fin 1 => (4 : ℝ)) 1
        = 1 * Matrix.diagonal (clampedEigs (fun _ : Fin 1 => (4 : ℝ)))
          * (1 : Matrix (Fin 1) (Fin 1) ℝ)ᵀ
      ∧ ∀ i j, ((sqrtmh (fun _ : Fin 1 => (4 : ℝ)) 1 * sqrtmh (fun _ : Fin 1 => (4 : ℝ)) 1
          * 1 : Matrix (Fin 1) (Fin 1) ℝ)) j i
          = if eighThreshold (fun _ : Fin 1 => (4 : ℝ)) < 4 then
              (((1 : Matrix (Fin 1) (Fin 1) ℝ) * Matrix.diagonal (fun _ : Fin 1 => (4 : ℝ))
                * (1 : Matrix (Fin 1) (Fin 1) ℝ)ᵀ * 1 : Matrix (Fin 1) (Fin 1) ℝ)) j i
            else 0) :=
  ⟨⟨by simp, by norm_num [machEps]⟩,
   sqrtmh_square_reconstructs (fun _ : Fin 1 => (4 : ℝ)) 1 (by simp)
     (by norm_num [machEps])⟩
